import Mathlib

/-!
Verification development for the duel-prediction settlement core.

Shallow embedding of the two on-chain settlement modules of the repository:

* the two-party chess escrow (`contracts/sources/chess_escrow.move`,
  module `chess_escrow::escrow`), and
* the pari-mutuel prediction market
  (`mantleContracts/contracts/PredictionMarket.sol`, with the Move variant
  `chess_escrow::prediction_market` embedded for the read-only
  potential-reward query, whose numerator differs between the variants).

Addresses, match ids, amounts and outcome/status codes are modelled as `Nat`.
Table lookups are total functions `Nat -> Option _` (Move tables) or total
functions with zero defaults (Solidity mappings).  Aborting / reverting
operations return `Except` (or `Option` for the Move market fragment);
coin transfers are modelled on an explicit balance map and fail when the
payer balance is insufficient, as `aptos_framework::coin` does.
-/

/-- Pointwise update of a table `Nat -> Option A` at key `k`. -/
def updT {A : Type} (f : Nat → Option A) (k : Nat) (v : Option A) : Nat → Option A :=
  fun x => if x = k then v else f x

/-- Pointwise update of a balance map at address `k`. -/
def updB (f : Nat → Nat) (k v : Nat) : Nat → Nat :=
  fun x => if x = k then v else f x

/-- `coin::transfer<AptosCoin>`: moves `amt` from `payer` to `payee`;
aborts (returns `none`) when the payer balance is below `amt`. -/
def coinTransfer (payer payee amt : Nat) (b : Nat → Nat) : Option (Nat → Nat) :=
  if amt ≤ b payer then
    some (updB (updB b payer (b payer - amt)) payee
      ((updB b payer (b payer - amt)) payee + amt))
  else
    none

-- ===== chess_escrow::escrow =====

/-- The `Escrow` resource of `chess_escrow::escrow`. -/
structure Escrow where
  admin : Nat
  player1 : Nat
  player2 : Nat
  amount : Nat
  total : Nat
  deposited1 : Bool
  deposited2 : Bool
deriving Repr, DecidableEq

/-- Abort codes of the escrow module (plus the coin-module abort for an
insufficient payer balance). -/
inductive EscrowErr where
  | notAdmin
  | alreadyDeposited
  | notReady
  | notFound
  | alreadyExists
  | insufficientBalance
deriving Repr, DecidableEq

/-- Global state of the escrow module: the table of escrows held in the
single `EscrowStore` (keyed by match id) plus the coin balances of all
accounts.  The funds held for a match live in the admin account, because
`deposit` executes `coin::transfer(player, admin, amount)`. -/
structure EscrowState where
  escrows : Nat → Option Escrow
  balances : Nat → Nat

/-- `create_escrow`: aborts `EESCROW_ALREADY_EXISTS` when the key is
present; otherwise inserts a fresh record with `total = 0` and both
deposited flags `false`.  The source places no requirement on `amount`
or on the player addresses. -/
def create_escrow (adminAddr m p1 p2 amt : Nat) (st : EscrowState) :
    Except EscrowErr EscrowState :=
  match st.escrows m with
  | some _ => .error .alreadyExists
  | none =>
      .ok { st with
        escrows := updT st.escrows m
          (some ⟨adminAddr, p1, p2, amt, 0, false, false⟩) }

/-- `deposit`: aborts `EESCROW_NOT_FOUND` when the match id is absent.
When the sender matches `player1` (checked first) or `player2`, aborts
`EALREADY_DEPOSITED` if that flag is set, otherwise transfers `amount`
to the admin, sets the flag and adds `amount` to `total`.  A sender
matching neither player falls through the `if`/`else if` chain and the
call succeeds without touching any state. -/
def deposit (caller m : Nat) (st : EscrowState) : Except EscrowErr EscrowState :=
  match st.escrows m with
  | none => .error .notFound
  | some e =>
      if caller = e.player1 then
        if e.deposited1 then .error .alreadyDeposited
        else
          match coinTransfer caller e.admin e.amount st.balances with
          | none => .error .insufficientBalance
          | some b =>
              .ok { escrows := updT st.escrows m
                      (some { e with deposited1 := true, total := e.total + e.amount }),
                    balances := b }
      else if caller = e.player2 then
        if e.deposited2 then .error .alreadyDeposited
        else
          match coinTransfer caller e.admin e.amount st.balances with
          | none => .error .insufficientBalance
          | some b =>
              .ok { escrows := updT st.escrows m
                      (some { e with deposited2 := true, total := e.total + e.amount }),
                    balances := b }
      else .ok st

/-- `resolve_win`: winner takes `total - total * 5 / 100`; the winner
address is not validated against the players.  The record is removed.
The fee share of `total` stays where the deposits already are: in the
admin account. -/
def resolve_win (caller m winner : Nat) (st : EscrowState) :
    Except EscrowErr EscrowState :=
  match st.escrows m with
  | none => .error .notFound
  | some e =>
      if caller = e.admin then
        if e.deposited1 && e.deposited2 then
          match coinTransfer caller winner (e.total - e.total * 5 / 100) st.balances with
          | none => .error .insufficientBalance
          | some b => .ok { escrows := updT st.escrows m none, balances := b }
        else .error .notReady
      else .error .notAdmin

/-- `resolve_draw`: each player receives `(total - fee) / 2` where
`fee = total * 5 / 100`; the record is removed.  The fee and any odd
unit of the halving stay in the admin account untransferred. -/
def resolve_draw (caller m : Nat) (st : EscrowState) : Except EscrowErr EscrowState :=
  match st.escrows m with
  | none => .error .notFound
  | some e =>
      if caller = e.admin then
        if e.deposited1 && e.deposited2 then
          match coinTransfer caller e.player1 ((e.total - e.total * 5 / 100) / 2) st.balances with
          | none => .error .insufficientBalance
          | some b1 =>
              match coinTransfer caller e.player2 ((e.total - e.total * 5 / 100) / 2) b1 with
              | none => .error .insufficientBalance
              | some b2 => .ok { escrows := updT st.escrows m none, balances := b2 }
        else .error .notReady
      else .error .notAdmin

/-- The full winner-takes-all lifecycle on one match: create, both
player deposits, then `resolve_win` by the admin. -/
def escrowLifecycleWin (a m p1 p2 s w : Nat) (st : EscrowState) :
    Except EscrowErr EscrowState :=
  create_escrow a m p1 p2 s st >>= deposit p1 m >>= deposit p2 m >>= resolve_win a m w

/-- The full draw lifecycle on one match: create, both player deposits,
then `resolve_draw` by the admin. -/
def escrowLifecycleDraw (a m p1 p2 s : Nat) (st : EscrowState) :
    Except EscrowErr EscrowState :=
  create_escrow a m p1 p2 s st >>= deposit p1 m >>= deposit p2 m >>= resolve_draw a m

/-- Balance of address `x` in the state of a non-aborted run. -/
def balOf (r : Except EscrowErr EscrowState) (x : Nat) : Option Nat :=
  r.toOption.map (fun s => s.balances x)

/-- Escrow record at match `m` in the state of a non-aborted run. -/
def escOf (r : Except EscrowErr EscrowState) (m : Nat) : Option (Option Escrow) :=
  r.toOption.map (fun s => s.escrows m)

-- ===== PredictionMarket.sol =====

/-- Solidity `Market` struct.  A mapping entry with `admin = 0`
(`address(0)`) is the absent / never-created market. -/
structure MarketRec where
  admin : Nat
  matchId : Nat
  player1 : Nat
  player2 : Nat
  status : Nat
  winningOutcome : Nat
  pool : Nat
  originalPoolSize : Nat
  player1Shares : Nat
  player2Shares : Nat
  drawShares : Nat
deriving Repr, DecidableEq

/-- The all-zero mapping default for `markets[matchId]`. -/
def emptyMarket : MarketRec := ⟨0, 0, 0, 0, 0, 0, 0, 0, 0, 0, 0⟩

/-- Custom errors of `PredictionMarket.sol` (plus the two
`require`-string reverts of `createMarket`). -/
inductive PMErr where
  | notAdmin
  | marketNotFound
  | marketAlreadyExists
  | marketAlreadyResolved
  | invalidOutcome
  | zeroBet
  | notResolved
  | noShares
  | alreadyClaimed
  | invalidPlayers
deriving Repr, DecidableEq

/-- Outcome and status constants of the source. -/
def OUTCOME_PLAYER1 : Nat := 1

def OUTCOME_PLAYER2 : Nat := 2

def OUTCOME_DRAW : Nat := 3

def STATUS_ACTIVE : Nat := 1

def STATUS_RESOLVED : Nat := 2

/-- Contract storage of `PredictionMarket`: the three mappings.  Token
balances are external (`IERC20`); money-moving operations additionally
return the amount handed to the token transfer primitive. -/
structure PMState where
  markets : Nat → MarketRec
  userShares : Nat → Nat → Nat → Nat
  hasClaimed : Nat → Nat → Bool

/-- Mapping update for `markets`. -/
def updMarkets (f : Nat → MarketRec) (k : Nat) (v : MarketRec) : Nat → MarketRec :=
  fun x => if x = k then v else f x

/-- Mapping update for `userShares[matchId][outcome][user]`. -/
def updShares (f : Nat → Nat → Nat → Nat) (m o u v : Nat) : Nat → Nat → Nat → Nat :=
  fun x y z => if x = m ∧ y = o ∧ z = u then v else f x y z

/-- Mapping update for `hasClaimed[matchId][user]`. -/
def updClaimed (f : Nat → Nat → Bool) (m u : Nat) (v : Bool) : Nat → Nat → Bool :=
  fun x y => if x = m ∧ y = u then v else f x y

/-- `createMarket`. -/
def createMarket (caller m p1 p2 : Nat) (st : PMState) : Except PMErr PMState :=
  if (st.markets m).admin ≠ 0 then .error .marketAlreadyExists
  else if p1 = 0 ∨ p2 = 0 then .error .invalidPlayers
  else
    .ok { st with
      markets := updMarkets st.markets m
        { admin := caller, matchId := m, player1 := p1, player2 := p2,
          status := STATUS_ACTIVE, winningOutcome := 0, pool := 0,
          originalPoolSize := 0, player1Shares := 0, player2Shares := 0,
          drawShares := 0 } }

/-- `bet`: validates the outcome and amount, requires an existing active
market, pulls `amount` via the token (the returned `Nat`), then adds
`amount` to the matching outcome total, to `pool`, and to the caller
entry of `userShares`. -/
def bet (caller m o a : Nat) (st : PMState) : Except PMErr (PMState × Nat) :=
  if ¬(o = OUTCOME_PLAYER1 ∨ o = OUTCOME_PLAYER2 ∨ o = OUTCOME_DRAW) then
    .error .invalidOutcome
  else if a = 0 then .error .zeroBet
  else
    let mk := st.markets m
    if mk.admin = 0 then .error .marketNotFound
    else if mk.status ≠ STATUS_ACTIVE then .error .marketAlreadyResolved
    else
      let mk1 :=
        if o = OUTCOME_PLAYER1 then { mk with player1Shares := mk.player1Shares + a }
        else if o = OUTCOME_PLAYER2 then { mk with player2Shares := mk.player2Shares + a }
        else { mk with drawShares := mk.drawShares + a }
      let mk2 := { mk1 with pool := mk1.pool + a }
      .ok ({ markets := updMarkets st.markets m mk2,
             userShares := updShares st.userShares m o caller (st.userShares m o caller + a),
             hasClaimed := st.hasClaimed }, a)

/-- `resolveMarket`: sets `status := RESOLVED`, records the winning
outcome, and freezes `originalPoolSize := pool`. -/
def resolveMarket (caller m o : Nat) (st : PMState) : Except PMErr PMState :=
  if ¬(o = OUTCOME_PLAYER1 ∨ o = OUTCOME_PLAYER2 ∨ o = OUTCOME_DRAW) then
    .error .invalidOutcome
  else
    let mk := st.markets m
    if mk.admin = 0 then .error .marketNotFound
    else if caller ≠ mk.admin then .error .notAdmin
    else if mk.status ≠ STATUS_ACTIVE then .error .marketAlreadyResolved
    else
      .ok { st with
        markets := updMarkets st.markets m
          { mk with status := STATUS_RESOLVED, winningOutcome := o,
                    originalPoolSize := mk.pool } }

/-- The `if`/`else if`/`else` outcome-total selection used by both
`claimRewards` and `getPotentialReward`. -/
def outcomeSharesOf (mk : MarketRec) (o : Nat) : Nat :=
  if o = OUTCOME_PLAYER1 then mk.player1Shares
  else if o = OUTCOME_PLAYER2 then mk.player2Shares
  else mk.drawShares

/-- The payout formula of `claimRewards`:
`(userShareAmount * market.originalPoolSize) / winningOutcomeShares`. -/
def reward (userShareAmount poolSize outcomeShares : Nat) : Nat :=
  userShareAmount * poolSize / outcomeShares

/-- `claimRewards`: guards in source order, then marks the claim, zeroes
the caller winning-outcome shares, and transfers `reward` (the returned
`Nat`).  The `markets` mapping is untouched. -/
def claimRewards (caller m : Nat) (st : PMState) : Except PMErr (PMState × Nat) :=
  let mk := st.markets m
  if mk.admin = 0 then .error .marketNotFound
  else if mk.status ≠ STATUS_RESOLVED ∨ mk.winningOutcome = 0 then .error .notResolved
  else if st.hasClaimed m caller then .error .alreadyClaimed
  else
    let w := mk.winningOutcome
    let u := st.userShares m w caller
    if u = 0 then .error .noShares
    else
      let t := outcomeSharesOf mk w
      if t = 0 then .error .noShares
      else
        .ok ({ markets := st.markets,
               userShares := updShares st.userShares m w caller 0,
               hasClaimed := updClaimed st.hasClaimed m caller true },
             reward u mk.originalPoolSize t)

/-- `getMarketStats`: reverts `MarketNotFound` on an absent market. -/
def getMarketStats (m : Nat) (st : PMState) :
    Except PMErr (Nat × Nat × Nat × Nat × Nat × Nat) :=
  let mk := st.markets m
  if mk.admin = 0 then .error .marketNotFound
  else .ok (mk.status, mk.winningOutcome, mk.pool,
            mk.player1Shares, mk.player2Shares, mk.drawShares)

/-- `getUserShares`: a plain mapping read, never reverts. -/
def getUserShares (m o u : Nat) (st : PMState) : Nat :=
  st.userShares m o u

/-- `hasUserClaimed`: a plain mapping read, never reverts. -/
def hasUserClaimed (m u : Nat) (st : PMState) : Bool :=
  st.hasClaimed m u

/-- `getPotentialReward`: returns `0` for an absent market, a zero
share, a losing resolved outcome, or a zero outcome total; otherwise
`userShares * market.pool / outcomeShares` with the live `pool` field. -/
def getPotentialReward (m o u : Nat) (st : PMState) : Nat :=
  let mk := st.markets m
  if mk.admin = 0 then 0
  else
    let us := st.userShares m o u
    if us = 0 then 0
    else if mk.status = STATUS_RESOLVED ∧ mk.winningOutcome ≠ o then 0
    else
      let os := outcomeSharesOf mk o
      if os = 0 then 0
      else us * mk.pool / os

/-- `getUserAllShares`: three mapping reads, never reverts. -/
def getUserAllShares (m u : Nat) (st : PMState) : Nat × Nat × Nat :=
  (st.userShares m OUTCOME_PLAYER1 u,
   st.userShares m OUTCOME_PLAYER2 u,
   st.userShares m OUTCOME_DRAW u)

/-- `marketExists`: `markets[matchId].admin != address(0)`. -/
def marketExists (m : Nat) (st : PMState) : Bool :=
  (st.markets m).admin ≠ 0

/-- `getMarketAdmin`: reverts `MarketNotFound` on an absent market. -/
def getMarketAdmin (m : Nat) (st : PMState) : Except PMErr Nat :=
  let mk := st.markets m
  if mk.admin = 0 then .error .marketNotFound
  else .ok mk.admin

/-- Run a list of `bet` calls `(caller, matchId, outcome, amount)` in
order; `none` as soon as one reverts. -/
def runBets : List (Nat × Nat × Nat × Nat) → PMState → Option PMState
  | [], st => some st
  | (c, m, o, a) :: rest, st =>
      match bet c m o a st with
      | .ok (st1, _) => runBets rest st1
      | .error _ => none

/-- The pool accounting invariant of every market record:
`pool = player1Shares + player2Shares + drawShares`. -/
def PoolInv (st : PMState) : Prop :=
  ∀ m, (st.markets m).pool =
    (st.markets m).player1Shares + (st.markets m).player2Shares + (st.markets m).drawShares

-- ===== chess_escrow::prediction_market (Move variant, pool held as coins) =====

/-- The Move `Market` struct.  `poolValue` is `coin::value(&market.pool)`:
unlike the Solidity `pool` field it shrinks when `claim_rewards` extracts
a payout. -/
structure MoveMarket where
  admin : Nat
  match_id : Nat
  player1 : Nat
  player2 : Nat
  status : Nat
  winning_outcome : Nat
  poolValue : Nat
  original_pool_size : Nat
  player1_shares : Nat
  player2_shares : Nat
  draw_shares : Nat
deriving Repr, DecidableEq

/-- Storage of the Move market module under one admin account: the
market table, the nested `match -> outcome -> user -> shares` table, and
the per-match claim tables.  Aborts are `none`. -/
structure MovePMState where
  markets : Nat → Option MoveMarket
  shares : Nat → Option (Nat → Option (Nat → Option Nat))
  claims : Nat → Option (Nat → Option Bool)

/-- `get_user_shares`: returns `0` whenever any level of the nested
table is absent. -/
def move_get_user_shares (m o u : Nat) (st : MovePMState) : Nat :=
  match st.shares m with
  | none => 0
  | some ot =>
      match ot o with
      | none => 0
      | some us =>
          match us u with
          | none => 0
          | some v => v

/-- The `if`/`else if`/`else` outcome-total selection of the Move
module. -/
def moveOutcomeSharesOf (mk : MoveMarket) (o : Nat) : Nat :=
  if o = OUTCOME_PLAYER1 then mk.player1_shares
  else if o = OUTCOME_PLAYER2 then mk.player2_shares
  else mk.draw_shares

/-- `get_potential_reward`: same guard structure as the Solidity getter,
but the numerator is `coin::value(&market.pool)` — the remaining coins,
not the frozen `original_pool_size`. -/
def move_get_potential_reward (m o u : Nat) (st : MovePMState) : Nat :=
  match st.markets m with
  | none => 0
  | some mk =>
      let us := move_get_user_shares m o u st
      if us = 0 then 0
      else if mk.status = STATUS_RESOLVED ∧ mk.winning_outcome ≠ o then 0
      else
        let os := moveOutcomeSharesOf mk o
        if os = 0 then 0
        else us * mk.poolValue / os

/-- `claim_rewards` (Move): guards in source order; on success marks the
claim, removes the user entry from the winning-outcome share table, and
`coin::extract`s the reward out of the pool (abort when the pool holds
fewer coins).  Returns the new state and the extracted amount. -/
def move_claim_rewards (user m : Nat) (st : MovePMState) :
    Option (MovePMState × Nat) :=
  match st.markets m with
  | none => none
  | some mk =>
      if mk.status ≠ STATUS_RESOLVED then none
      else if mk.winning_outcome = 0 then none
      else
        match st.claims m with
        | none => none
        | some ctab =>
            if ctab user = some true then none
            else
              let w := mk.winning_outcome
              match st.shares m with
              | none => none
              | some ot =>
                  match ot w with
                  | none => none
                  | some us =>
                      match us user with
                      | none => none
                      | some uamt =>
                          if uamt = 0 then none
                          else
                            let wshares := moveOutcomeSharesOf mk w
                            if wshares = 0 then none
                            else
                              let r := uamt * mk.original_pool_size / wshares
                              if r ≤ mk.poolValue then
                                some ({ markets := updT st.markets m
                                          (some { mk with poolValue := mk.poolValue - r }),
                                        shares := updT st.shares m
                                          (some (updT ot w (some (updT us user none)))),
                                        claims := updT st.claims m
                                          (some (updT ctab user (some true))) }, r)
                              else none

/-- An empty escrow state: no records, all balances zero. -/
def c9State : EscrowState := ⟨fun _ => none, fun _ => 0⟩

/-- A one-escrow state used by the C6 counterexample and witness. -/
def c6State : EscrowState :=
  ⟨updT (fun _ => none) 1 (some ⟨10, 11, 12, 50, 0, false, false⟩), fun _ => 100⟩

-- ===== C8: read-only queries =====

/-- The uninitialized contract storage: every mapping at its Solidity
default. -/
def c8Empty : PMState := ⟨fun _ => emptyMarket, fun _ _ _ => 0, fun _ _ => false⟩

/-- A resolved one-market state: pool snapshot 300, winning outcome 1
with total 300, user 20 holding 100 shares and user 21 holding 200. -/
def c1State : PMState :=
  { markets :=
      (updMarkets (fun _ => emptyMarket) 1
        { admin := 10, matchId := 1, player1 := 11, player2 := 12,
          status := 2, winningOutcome := 1, pool := 300,
          originalPoolSize := 300, player1Shares := 300,
          player2Shares := 0, drawShares := 0 }),
    userShares := (updShares (updShares (fun _ _ _ => 0) 1 1 20 100) 1 1 21 200),
    hasClaimed := fun _ _ => false }

/-- The Move market record used by the C7 scenario: resolved with
winning outcome 1, snapshot 300, winning-outcome total 300, pool coins
300. -/
def c7MoveMk : MoveMarket := ⟨10, 1, 11, 12, 2, 1, 300, 300, 300, 0, 0⟩

/-- Move state for the C7 scenario: user 20 holds 100 and user 21 holds
200 shares on outcome 1 of match 1; nobody has claimed. -/
def c7Move : MovePMState :=
  { markets := (updT (fun _ => none) 1 (some c7MoveMk)),
    shares := (updT (fun _ => none) 1
      (some (updT (fun _ => none) 1
        (some (updT (updT (fun _ => none) 20 (some 100)) 21 (some 200)))))),
    claims := (updT (fun _ => none) 1 (some (fun _ => none))) }

/-- Solidity state for the C7 witness: an active market for match 1,
administered by user 20, with 300 staked on outcome 1 (user 20: 100,
user 21: 200). -/
def c7Active : PMState :=
  { markets := (updMarkets (fun _ => emptyMarket) 1
      { admin := 20, matchId := 1, player1 := 11, player2 := 12,
        status := 1, winningOutcome := 0, pool := 300,
        originalPoolSize := 0, player1Shares := 300,
        player2Shares := 0, drawShares := 0 }),
    userShares := (updShares (updShares (fun _ _ _ => 0) 1 1 20 100) 1 1 21 200),
    hasClaimed := fun _ _ => false }

/-- `c7Active` after `resolveMarket 20 1 1`. -/
def c7Resolved : PMState :=
  { c7Active with markets :=
      (updMarkets c7Active.markets 1
        { admin := 20, matchId := 1, player1 := 11, player2 := 12,
          status := 2, winningOutcome := 1, pool := 300,
          originalPoolSize := 300, player1Shares := 300,
          player2Shares := 0, drawShares := 0 }) }

/-- `c7Resolved` after user 20 claims. -/
def c7Claimed : PMState :=
  { markets := c7Resolved.markets,
    userShares :=
      (updShares c7Resolved.userShares 1 (c7Resolved.markets 1).winningOutcome 20 0),
    hasClaimed := (updClaimed c7Resolved.hasClaimed 1 20 true) }

/-- Fresh active market for the C3 witness: match 1, admin 10, no bets
yet. -/
def c3Start : PMState :=
  { markets := (updMarkets (fun _ => emptyMarket) 1
      { admin := 10, matchId := 1, player1 := 11, player2 := 12,
        status := 1, winningOutcome := 0, pool := 0,
        originalPoolSize := 0, player1Shares := 0,
        player2Shares := 0, drawShares := 0 }),
    userShares := fun _ _ _ => 0,
    hasClaimed := fun _ _ => false }

/-- `c3Start` after the first bet of the C3 witness run. -/
def c3Mid : PMState :=
  ((bet 20 1 1 100 c3Start).toOption.map Prod.fst).getD c3Start

/-- `c3Start` after the two-bet run of the C3 witness. -/
def c3End : PMState :=
  (runBets [(20, 1, 1, 100), (21, 1, 3, 50)] c3Start).getD c3Start

-- ===== C10: escrow with player1 = player2 =====

/-- The locked-escrow configuration of C10: the record for match `m`
exists, both player slots hold the same identity `p`, and the second
deposit flag is still unset. -/
def p12Inv (p m : Nat) (st : EscrowState) : Prop :=
  ∃ e, st.escrows m = some e ∧ e.player1 = p ∧ e.player2 = p ∧ e.deposited2 = false

/-- One successful operation of the escrow module, with any arguments. -/
inductive EStep : EscrowState → EscrowState → Prop where
  | create (a m p1 p2 amt : Nat) {st st1 : EscrowState}
      (h : create_escrow a m p1 p2 amt st = .ok st1) : EStep st st1
  | dep (c m : Nat) {st st1 : EscrowState}
      (h : deposit c m st = .ok st1) : EStep st st1
  | rwin (c m w : Nat) {st st1 : EscrowState}
      (h : resolve_win c m w st = .ok st1) : EStep st st1
  | rdraw (c m : Nat) {st st1 : EscrowState}
      (h : resolve_draw c m st = .ok st1) : EStep st st1

/-- Escrow state for the C10 witness: match 1 created with both player
slots holding identity 11, stake 50; all balances 100. -/
def c10Start : EscrowState :=
  ⟨updT (fun _ => none) 1 (some ⟨10, 11, 11, 50, 0, false, false⟩), fun _ => 100⟩

/-- `c10Start` after the single possible deposit by identity 11. -/
def c10Stepped : EscrowState :=
  (deposit 11 1 c10Start).toOption.getD c10Start

/-- Empty escrow store with every account holding 1000 units, for the
C2 witness. -/
def c2Start : EscrowState := ⟨fun _ => none, fun _ => 1000⟩

/-- A fully funded escrow for the step-level part of the C2 witness:
match 1, admin 10, players 11 and 12, stake 100, both deposited,
all balances 1000. -/
def c2Funded : EscrowState :=
  ⟨updT (fun _ => none) 1 (some ⟨10, 11, 12, 100, 200, true, true⟩), fun _ => 1000⟩

@[simp] theorem updT_same {A : Type} (f : Nat → Option A) (k : Nat) (v : Option A) :
    updT f k v k = v := by simp [updT]

theorem updT_ne {A : Type} (f : Nat → Option A) (k : Nat) (v : Option A)
    (x : Nat) (h : x ≠ k) : updT f k v x = f x := by simp [updT, h]

@[simp] theorem updT_updT {A : Type} (f : Nat → Option A) (k : Nat) (v v2 : Option A) :
    updT (updT f k v) k v2 = updT f k v2 := by
  funext x
  by_cases h : x = k <;> simp [updT, h]

@[simp] theorem updB_same (f : Nat → Nat) (k v : Nat) : updB f k v k = v := by simp [updB]

theorem updB_ne (f : Nat → Nat) (k v x : Nat) (h : x ≠ k) : updB f k v x = f x := by
  simp [updB, h]

@[simp] theorem balOf_ok (s : EscrowState) (x : Nat) :
    balOf (.ok s) x = some (s.balances x) := rfl

@[simp] theorem escOf_ok (s : EscrowState) (m : Nat) :
    escOf (.ok s) m = some (s.escrows m) := rfl

@[simp] theorem updMarkets_same (f : Nat → MarketRec) (k : Nat) (v : MarketRec) :
    updMarkets f k v k = v := by simp [updMarkets]

theorem updMarkets_ne (f : Nat → MarketRec) (k : Nat) (v : MarketRec) (x : Nat)
    (h : x ≠ k) : updMarkets f k v x = f x := by simp [updMarkets, h]

@[simp] theorem updShares_same (f : Nat → Nat → Nat → Nat) (m o u v : Nat) :
    updShares f m o u v m o u = v := by simp [updShares]

theorem updShares_ne (f : Nat → Nat → Nat → Nat) (m o u v x y z : Nat)
    (h : ¬(x = m ∧ y = o ∧ z = u)) : updShares f m o u v x y z = f x y z := by
  simp [updShares, h]

@[simp] theorem updClaimed_same (f : Nat → Nat → Bool) (m u : Nat) (v : Bool) :
    updClaimed f m u v m u = v := by simp [updClaimed]

theorem updClaimed_ne (f : Nat → Nat → Bool) (m u : Nat) (v : Bool) (x y : Nat)
    (h : ¬(x = m ∧ y = u)) : updClaimed f m u v x y = f x y := by
  simp [updClaimed, h]

-- ===== C9: escrow creation =====

/-- C9: `create_escrow` fails `AlreadyExists` when the match id is
present, and otherwise inserts a fresh record with `totalDeposited = 0`
and both deposit flags `false` — but, against the claim, it accepts any
`stakePerPlayer` (including `0`) and any player identities (including
the zero identity): the source has no validation beyond the key check. -/
theorem create_escrow_spec (a m p1 p2 amt : Nat) (st : EscrowState) :
    (∀ e, st.escrows m = some e →
      create_escrow a m p1 p2 amt st = .error .alreadyExists) ∧
    (st.escrows m = none →
      create_escrow a m p1 p2 amt st =
        .ok { st with escrows :=
                (updT st.escrows m (some ⟨a, p1, p2, amt, 0, false, false⟩)) }) := by
  constructor
  · intro e he
    simp [create_escrow, he]
  · intro h
    simp [create_escrow, h]

/-- C9 counterexample: with the store empty, `create_escrow` with
`stakePerPlayer = 0` and both players the zero identity succeeds and
inserts the record — the claim says both conditions are rejected. -/
theorem create_escrow_no_validation :
    (create_escrow 10 1 0 0 0 c9State).toOption.map (fun s => s.escrows 1) =
      some (some ⟨10, 0, 0, 0, 0, false, false⟩) := by
  decide

/-- Witness for `create_escrow_spec` at concrete inputs. -/
theorem create_escrow_spec_witness :
    create_escrow 10 1 11 12 50 c9State =
      .ok { c9State with escrows :=
              (updT c9State.escrows 1 (some ⟨10, 11, 12, 50, 0, false, false⟩)) } :=
  (create_escrow_spec 10 1 11 12 50 c9State).2 rfl

-- ===== C6: deposit by an outsider =====

/-- C6: `deposit` fails `NotFound` only when the match id is absent; a
caller matching neither player on an existing escrow is NOT rejected:
the `if`/`else if` chain falls through and the call succeeds while
changing nothing. -/
theorem deposit_outsider_spec (caller m : Nat) (st : EscrowState) :
    (st.escrows m = none → deposit caller m st = .error .notFound) ∧
    (∀ e, st.escrows m = some e → caller ≠ e.player1 → caller ≠ e.player2 →
      deposit caller m st = .ok st) := by
  constructor
  · intro h
    simp [deposit, h]
  · intro e he h1 h2
    simp [deposit, he, h1, h2]

/-- C6 counterexample: caller `13` matches neither player `11` nor `12`
of the existing escrow for match `1`, yet `deposit` succeeds (returning
the state unchanged) instead of failing `NotFound`. -/
theorem deposit_outsider_succeeds :
    deposit 13 1 c6State = .ok c6State ∧
    deposit 13 1 c6State ≠ .error .notFound := by
  refine ⟨rfl, ?_⟩
  intro h
  have h2 : (Except.ok c6State : Except EscrowErr EscrowState) = .error .notFound := h
  exact Except.noConfusion h2

/-- Witness for `deposit_outsider_spec` at concrete inputs. -/
theorem deposit_outsider_spec_witness :
    deposit 13 1 c6State = .ok c6State :=
  (deposit_outsider_spec 13 1 c6State).2 ⟨10, 11, 12, 50, 0, false, false⟩ rfl
    (by decide) (by decide)

/-- C8 (amended): on an absent market, `marketExists`,
`getPotentialReward`, `getUserShares`, `hasUserClaimed` and
`getUserAllShares` return defaults and never fail, but the market stats
query (`getMarketStats`) and `getMarketAdmin` DO fail the caller with
`MarketNotFound`. -/
theorem read_queries_absent (m o u : Nat) (st : PMState)
    (h : (st.markets m).admin = 0) :
    (marketExists m st = false ∧
     getPotentialReward m o u st = 0 ∧
     getMarketStats m st = .error .marketNotFound ∧
     getMarketAdmin m st = .error .marketNotFound) ∧
    (getUserShares m o u c8Empty = 0 ∧
     hasUserClaimed m u c8Empty = false ∧
     getUserAllShares m u c8Empty = (0, 0, 0) ∧
     marketExists m c8Empty = false) := by
  refine ⟨⟨?_, ?_, ?_, ?_⟩, rfl, rfl, rfl, rfl⟩
  · simp [marketExists, h]
  · simp [getPotentialReward, h]
  · simp [getMarketStats, h]
  · simp [getMarketAdmin, h]

/-- C8 counterexample: the stats query on the uninitialized store fails
`MarketNotFound` instead of returning a zero/default tuple. -/
theorem getMarketStats_fails_on_absent :
    getMarketStats 1 c8Empty = .error .marketNotFound := rfl

/-- Witness for `read_queries_absent` at concrete inputs. -/
theorem read_queries_absent_witness :
    (marketExists 1 c8Empty = false ∧
     getPotentialReward 1 1 20 c8Empty = 0 ∧
     getMarketStats 1 c8Empty = .error .marketNotFound ∧
     getMarketAdmin 1 c8Empty = .error .marketNotFound) ∧
    (getUserShares 1 1 20 c8Empty = 0 ∧
     hasUserClaimed 1 20 c8Empty = false ∧
     getUserAllShares 1 20 c8Empty = (0, 0, 0) ∧
     marketExists 1 c8Empty = false) :=
  read_queries_absent 1 1 20 c8Empty rfl

-- ===== C1: claimRewards =====

/-- C1: on a resolved market, a caller with positive shares `u` on the
winning outcome whose total `t` is positive and who has not claimed:
`claimRewards` succeeds, transfers exactly
`u * originalPoolSize / t`, sets the claimed flag, zeroes the caller
winning-outcome shares, and a second call fails `AlreadyClaimed`. -/
theorem claimRewards_spec (caller m : Nat) (st : PMState)
    (hadmin : (st.markets m).admin ≠ 0)
    (hstatus : (st.markets m).status = STATUS_RESOLVED)
    (hw : (st.markets m).winningOutcome ≠ 0)
    (hnc : st.hasClaimed m caller = false)
    (hu : 0 < st.userShares m (st.markets m).winningOutcome caller)
    (ht : 0 < outcomeSharesOf (st.markets m) (st.markets m).winningOutcome) :
    claimRewards caller m st =
      .ok ({ markets := st.markets,
             userShares :=
               (updShares st.userShares m (st.markets m).winningOutcome caller 0),
             hasClaimed := (updClaimed st.hasClaimed m caller true) },
           reward (st.userShares m (st.markets m).winningOutcome caller)
             (st.markets m).originalPoolSize
             (outcomeSharesOf (st.markets m) (st.markets m).winningOutcome)) ∧
    (∀ st1 r, claimRewards caller m st = .ok (st1, r) →
      st1.hasClaimed m caller = true ∧
      st1.userShares m (st.markets m).winningOutcome caller = 0 ∧
      claimRewards caller m st1 = .error .alreadyClaimed) := by
  have hok : claimRewards caller m st =
      .ok ({ markets := st.markets,
             userShares :=
               (updShares st.userShares m (st.markets m).winningOutcome caller 0),
             hasClaimed := (updClaimed st.hasClaimed m caller true) },
           reward (st.userShares m (st.markets m).winningOutcome caller)
             (st.markets m).originalPoolSize
             (outcomeSharesOf (st.markets m) (st.markets m).winningOutcome)) := by
    simp [claimRewards, hadmin, hstatus, hnc, hw, Nat.pos_iff_ne_zero.mp hu,
      Nat.pos_iff_ne_zero.mp ht]
  refine ⟨hok, ?_⟩
  intro st1 r h
  rw [hok] at h
  obtain ⟨h1, h2⟩ := Prod.mk.inj (Except.ok.inj h).symm
  subst h1
  refine ⟨by simp, by simp, ?_⟩
  simp [claimRewards, hadmin, hstatus, hw]

/-- Witness for `claimRewards_spec` at concrete inputs: user 20 claims
`100 * 300 / 300 = 100` from `c1State`. -/
theorem claimRewards_spec_witness :
    claimRewards 20 1 c1State =
      .ok ({ markets := c1State.markets,
             userShares :=
               (updShares c1State.userShares 1 (c1State.markets 1).winningOutcome 20 0),
             hasClaimed := (updClaimed c1State.hasClaimed 1 20 true) },
           reward (c1State.userShares 1 (c1State.markets 1).winningOutcome 20)
             (c1State.markets 1).originalPoolSize
             (outcomeSharesOf (c1State.markets 1) (c1State.markets 1).winningOutcome)) :=
  (claimRewards_spec 20 1 c1State (by decide) (by decide) (by decide) rfl
    (by decide) (by decide)).1

-- ===== C7: potential-reward projection =====

/-- C7 (amended): in the EVM variant the claim holds — resolution
freezes `originalPoolSize := pool`, the `pool` field is never reduced by
`claimRewards`, so the resolved-market query equals the snapshot formula
`reward u snapshot total` and is unaffected by claims of other users,
while an active market is quoted with the live `pool`.  In the Move
variant the numerator is the CURRENT coin value of the pool, which
shrinks as rewards are extracted, so its query is not independent of
rewards already paid. -/
theorem getPotentialReward_spec
    (m o u c r : Nat) (stP stQ stR stA stC : PMState)
    (mk : MoveMarket) (mst : MovePMState) :
    (resolveMarket c m o stP = .ok stQ →
      (stQ.markets m).pool = (stQ.markets m).originalPoolSize) ∧
    ((stR.markets m).admin ≠ 0 → (stR.markets m).status = STATUS_RESOLVED →
      (stR.markets m).winningOutcome = o →
      (stR.markets m).pool = (stR.markets m).originalPoolSize →
      stR.userShares m o u ≠ 0 → outcomeSharesOf (stR.markets m) o ≠ 0 →
      getPotentialReward m o u stR =
        reward (stR.userShares m o u) (stR.markets m).originalPoolSize
          (outcomeSharesOf (stR.markets m) o)) ∧
    ((stA.markets m).admin ≠ 0 → (stA.markets m).status = STATUS_ACTIVE →
      stA.userShares m o u ≠ 0 → outcomeSharesOf (stA.markets m) o ≠ 0 →
      getPotentialReward m o u stA =
        reward (stA.userShares m o u) (stA.markets m).pool
          (outcomeSharesOf (stA.markets m) o)) ∧
    (claimRewards c m stR = .ok (stC, r) → c ≠ u →
      getPotentialReward m o u stC = getPotentialReward m o u stR) ∧
    (mst.markets m = some mk → mk.status = STATUS_RESOLVED →
      mk.winning_outcome = o → move_get_user_shares m o u mst ≠ 0 →
      moveOutcomeSharesOf mk o ≠ 0 →
      move_get_potential_reward m o u mst =
        move_get_user_shares m o u mst * mk.poolValue / moveOutcomeSharesOf mk o) := by
  refine ⟨?_, ?_, ?_, ?_, ?_⟩
  · intro h
    simp only [resolveMarket] at h
    split at h
    · exact Except.noConfusion h
    split at h
    · exact Except.noConfusion h
    split at h
    · exact Except.noConfusion h
    split at h
    · exact Except.noConfusion h
    cases Except.ok.inj h
    simp
  · intro hadmin hstatus hwin hpool hu ht
    simp [getPotentialReward, hadmin, hu, ht, reward, hstatus, hwin, hpool]
  · intro hadmin hactive hu ht
    simp [getPotentialReward, hadmin, hu, ht, reward, hactive,
      STATUS_ACTIVE, STATUS_RESOLVED]
  · intro h hne
    simp only [claimRewards] at h
    split at h
    · exact Except.noConfusion h
    split at h
    · exact Except.noConfusion h
    split at h
    · exact Except.noConfusion h
    split at h
    · exact Except.noConfusion h
    split at h
    · exact Except.noConfusion h
    obtain ⟨h1, h2⟩ := Prod.mk.inj (Except.ok.inj h).symm
    subst h1
    have hus : updShares stR.userShares m (stR.markets m).winningOutcome c 0 m o u =
        stR.userShares m o u :=
      updShares_ne _ _ _ _ _ _ _ _ (by intro hk; exact hne hk.2.2.symm)
    simp [getPotentialReward, hus]
  · intro hmk hst hwin hu ht
    simp [move_get_potential_reward, hmk, hu, ht, hst, hwin]

/-- C7 counterexample: before any claim the Move query for user 21
quotes `200 = floor(200 * 300 / 300)`; after user 20 claims, the same
query returns `floor(200 * 200 / 300) = 133`, not the frozen-snapshot
value `200` — the query is not independent of rewards already paid. -/
theorem move_potential_reward_depends_on_claims :
    move_get_potential_reward 1 1 21 c7Move = 200 ∧
    (move_claim_rewards 20 1 c7Move).map
      (fun p => move_get_potential_reward 1 1 21 p.1) = some 133 ∧
    (133 : Nat) ≠ 200 * 300 / 300 := by
  decide

/-- Witness for `getPotentialReward_spec` at concrete inputs. -/
theorem getPotentialReward_spec_witness :
    (c7Resolved.markets 1).pool = (c7Resolved.markets 1).originalPoolSize ∧
    getPotentialReward 1 1 21 c7Resolved =
      reward (c7Resolved.userShares 1 1 21) (c7Resolved.markets 1).originalPoolSize
        (outcomeSharesOf (c7Resolved.markets 1) 1) ∧
    getPotentialReward 1 1 21 c7Active =
      reward (c7Active.userShares 1 1 21) (c7Active.markets 1).pool
        (outcomeSharesOf (c7Active.markets 1) 1) ∧
    getPotentialReward 1 1 21 c7Claimed = getPotentialReward 1 1 21 c7Resolved ∧
    move_get_potential_reward 1 1 21 c7Move =
      move_get_user_shares 1 1 21 c7Move * c7MoveMk.poolValue /
        moveOutcomeSharesOf c7MoveMk 1 := by
  obtain ⟨h1, h2, h3, h4, h5⟩ :=
    getPotentialReward_spec 1 1 21 20
      (reward (c7Resolved.userShares 1 1 20) (c7Resolved.markets 1).originalPoolSize
        (outcomeSharesOf (c7Resolved.markets 1) 1))
      c7Active c7Resolved c7Resolved c7Active c7Claimed c7MoveMk c7Move
  exact ⟨h1 rfl, h2 (by decide) rfl rfl (by decide) (by decide) (by decide),
    h3 (by decide) rfl (by decide) (by decide), h4 rfl (by decide),
    h5 rfl rfl rfl (by decide) (by decide)⟩

-- ===== C5: payout-sum and dust bounds =====

theorem div_add_div_le (a b c : Nat) : a / c + b / c ≤ (a + b) / c := by
  rcases Nat.eq_zero_or_pos c with hc | hc
  · simp [hc]
  · rw [Nat.le_div_iff_mul_le hc, Nat.add_mul]
    exact Nat.add_le_add (Nat.div_mul_le_self a c) (Nat.div_mul_le_self b c)

theorem rewards_sum_le_sum_div (P T : Nat) (l : List Nat) :
    (l.map (fun s => reward s P T)).sum ≤ l.sum * P / T := by
  induction l with
  | nil => simp
  | cons s t ih =>
      simp only [List.map_cons, List.sum_cons, List.sum_cons, reward]
      calc s * P / T + (t.map (fun x => reward x P T)).sum
          ≤ s * P / T + t.sum * P / T := Nat.add_le_add_left ih _
        _ ≤ (s * P + t.sum * P) / T := div_add_div_le _ _ _
        _ = (s + t.sum) * P / T := by rw [Nat.add_mul]

theorem rewards_sum_decomp (P T : Nat) (l : List Nat) :
    l.sum * P =
      T * (l.map (fun s => reward s P T)).sum + (l.map (fun s => s * P % T)).sum := by
  induction l with
  | nil => simp
  | cons s t ih =>
      simp only [List.map_cons, List.sum_cons, reward]
      calc (s + t.sum) * P = s * P + t.sum * P := by rw [Nat.add_mul]
        _ = (T * (s * P / T) + s * P % T) +
              (T * (t.map (fun x => reward x P T)).sum +
                (t.map (fun x => x * P % T)).sum) := by
            rw [Nat.div_add_mod, ih]
        _ = T * (s * P / T + (t.map (fun x => reward x P T)).sum) +
              (s * P % T + (t.map (fun x => x * P % T)).sum) := by ring

theorem mods_sum_le (P T : Nat) (hT : 0 < T) (l : List Nat) :
    (l.map (fun s => s * P % T)).sum ≤ l.length * (T - 1) := by
  induction l with
  | nil => simp
  | cons s t ih =>
      simp only [List.map_cons, List.sum_cons, List.length_cons]
      have hm : s * P % T ≤ T - 1 := Nat.le_sub_one_of_lt (Nat.mod_lt _ hT)
      calc s * P % T + (t.map (fun x => x * P % T)).sum
          ≤ (T - 1) + t.length * (T - 1) := Nat.add_le_add hm ih
        _ = (t.length + 1) * (T - 1) := by ring

/-- C5: with snapshot `P` and winning-outcome total `T > 0`, any shares
`s_1 .. s_k` with `s_1 + .. + s_k <= T` have
`sum_i floor(s_i * P / T) <= P`; and when they exhaust the outcome
(`sum = T`, `k >= 1`) the dust `P - sum_i floor(s_i * P / T)` is at most
`k - 1`. -/
theorem claim_payout_bounds (P T : Nat) (l : List Nat) (hT : 0 < T)
    (hle : l.sum ≤ T) :
    (l.map (fun s => reward s P T)).sum ≤ P ∧
    (l.sum = T → l ≠ [] →
      P - (l.map (fun s => reward s P T)).sum ≤ l.length - 1) := by
  constructor
  · calc (l.map (fun s => reward s P T)).sum
        ≤ l.sum * P / T := rewards_sum_le_sum_div P T l
      _ ≤ T * P / T := Nat.div_le_div_right (Nat.mul_le_mul_right P hle)
      _ = P := Nat.mul_div_cancel_left P hT
  · intro hsum hne
    have hk : 0 < l.length := List.length_pos.mpr hne
    have hdec := rewards_sum_decomp P T l
    rw [hsum] at hdec
    have hmods := mods_sum_le P T hT l
    set S := (l.map (fun s => reward s P T)).sum with hS
    set M := (l.map (fun s => s * P % T)).sum with hM
    set k := l.length with hkdef
    have h1 : T * P ≤ T * S + k * (T - 1) := by
      calc T * P = T * S + M := hdec
        _ ≤ T * S + k * (T - 1) := Nat.add_le_add_left hmods _
    have h2 : T * P < T * (S + k) := by
      have hks : k * (T - 1) + k = k * T := by
        have : T - 1 + 1 = T := Nat.succ_pred_eq_of_pos hT
        calc k * (T - 1) + k = k * (T - 1 + 1) := by ring
          _ = k * T := by rw [this]
      have : T * P + k ≤ T * S + k * T := by
        calc T * P + k ≤ (T * S + k * (T - 1)) + k := Nat.add_le_add_right h1 k
          _ = T * S + (k * (T - 1) + k) := by ring
          _ = T * S + k * T := by rw [hks]
      calc T * P < T * P + k := Nat.lt_add_of_pos_right hk
        _ ≤ T * S + k * T := this
        _ = T * (S + k) := by ring
    have h3 : P < S + k := Nat.lt_of_mul_lt_mul_left h2
    omega

/-- Witness for `claim_payout_bounds`: the spec example with stakes 1000
and 2000 on the winning outcome and a 4500 pool snapshot. -/
theorem claim_payout_bounds_witness :
    ([1000, 2000].map (fun s => reward s 4500 3000)).sum ≤ 4500 ∧
    4500 - ([1000, 2000].map (fun s => reward s 4500 3000)).sum ≤
      ([1000, 2000] : List Nat).length - 1 := by
  obtain ⟨h1, h2⟩ := claim_payout_bounds 4500 3000 [1000, 2000] (by decide) (by decide)
  exact ⟨h1, h2 (by decide) (by decide)⟩

-- ===== C3: bet accounting =====

theorem bet_ok_cases (c m o a : Nat) (st st1 : PMState) (r : Nat)
    (h : bet c m o a st = .ok (st1, r)) :
    r = a ∧ a ≠ 0 ∧ (st.markets m).admin ≠ 0 ∧
    (st.markets m).status = STATUS_ACTIVE ∧
    (o = OUTCOME_PLAYER1 ∨ o = OUTCOME_PLAYER2 ∨ o = OUTCOME_DRAW) ∧
    st1.userShares = updShares st.userShares m o c (st.userShares m o c + a) ∧
    st1.hasClaimed = st.hasClaimed ∧
    (∀ m2, m2 ≠ m → st1.markets m2 = st.markets m2) ∧
    (st1.markets m).pool = (st.markets m).pool + a ∧
    (o = OUTCOME_PLAYER1 →
      (st1.markets m).player1Shares = (st.markets m).player1Shares + a ∧
      (st1.markets m).player2Shares = (st.markets m).player2Shares ∧
      (st1.markets m).drawShares = (st.markets m).drawShares) ∧
    (o = OUTCOME_PLAYER2 →
      (st1.markets m).player1Shares = (st.markets m).player1Shares ∧
      (st1.markets m).player2Shares = (st.markets m).player2Shares + a ∧
      (st1.markets m).drawShares = (st.markets m).drawShares) ∧
    (o = OUTCOME_DRAW →
      (st1.markets m).player1Shares = (st.markets m).player1Shares ∧
      (st1.markets m).player2Shares = (st.markets m).player2Shares ∧
      (st1.markets m).drawShares = (st.markets m).drawShares + a) := by
  by_cases ho : o = OUTCOME_PLAYER1 ∨ o = OUTCOME_PLAYER2 ∨ o = OUTCOME_DRAW
  · by_cases ha : a = 0
    · simp [bet, ho, ha] at h
    · by_cases hadm : (st.markets m).admin = 0
      · simp [bet, ho, ha, hadm] at h
      · by_cases hstat : (st.markets m).status = STATUS_ACTIVE
        · rcases ho with rfl | rfl | rfl
          · simp only [bet, OUTCOME_PLAYER1, OUTCOME_PLAYER2, OUTCOME_DRAW] at h
            rw [if_neg (by simp), if_neg ha, if_neg hadm,
              if_neg (by simp [hstat, STATUS_ACTIVE])] at h
            obtain ⟨h1, h2⟩ := Prod.mk.inj (Except.ok.inj h).symm
            subst h1
            refine ⟨h2, ha, hadm, hstat, by simp [OUTCOME_PLAYER1], rfl, rfl,
              ?_, ?_, ?_, ?_, ?_⟩
            · intro m2 hm2
              exact updMarkets_ne _ _ _ _ hm2
            · simp
            · intro _
              simp
            · intro hx
              exact absurd hx (by simp [OUTCOME_PLAYER1, OUTCOME_PLAYER2])
            · intro hx
              exact absurd hx (by simp [OUTCOME_PLAYER1, OUTCOME_DRAW])
          · simp only [bet, OUTCOME_PLAYER1, OUTCOME_PLAYER2, OUTCOME_DRAW] at h
            rw [if_neg (by simp), if_neg ha, if_neg hadm,
              if_neg (by simp [hstat, STATUS_ACTIVE])] at h
            obtain ⟨h1, h2⟩ := Prod.mk.inj (Except.ok.inj h).symm
            subst h1
            refine ⟨h2, ha, hadm, hstat, by simp [OUTCOME_PLAYER2], rfl, rfl,
              ?_, ?_, ?_, ?_, ?_⟩
            · intro m2 hm2
              exact updMarkets_ne _ _ _ _ hm2
            · simp
            · intro hx
              exact absurd hx (by simp [OUTCOME_PLAYER1, OUTCOME_PLAYER2])
            · intro _
              simp
            · intro hx
              exact absurd hx (by simp [OUTCOME_PLAYER2, OUTCOME_DRAW])
          · simp only [bet, OUTCOME_PLAYER1, OUTCOME_PLAYER2, OUTCOME_DRAW] at h
            rw [if_neg (by simp), if_neg ha, if_neg hadm,
              if_neg (by simp [hstat, STATUS_ACTIVE])] at h
            obtain ⟨h1, h2⟩ := Prod.mk.inj (Except.ok.inj h).symm
            subst h1
            refine ⟨h2, ha, hadm, hstat, by simp [OUTCOME_DRAW], rfl, rfl,
              ?_, ?_, ?_, ?_, ?_⟩
            · intro m2 hm2
              exact updMarkets_ne _ _ _ _ hm2
            · simp
            · intro hx
              exact absurd hx (by simp [OUTCOME_PLAYER1, OUTCOME_DRAW])
            · intro hx
              exact absurd hx (by simp [OUTCOME_PLAYER2, OUTCOME_DRAW])
            · intro _
              simp
        · simp [bet, ho, ha, hadm, hstat] at h
  · simp [bet, ho] at h

theorem bet_preserves_poolInv (c m o a : Nat) (st st1 : PMState) (r : Nat)
    (hInv : PoolInv st) (h : bet c m o a st = .ok (st1, r)) : PoolInv st1 := by
  obtain ⟨-, -, -, -, ho, -, -, hother, hpool, h1, h2, h3⟩ := bet_ok_cases c m o a st st1 r h
  intro m2
  by_cases hm2 : m2 = m
  · subst hm2
    rcases ho with h | h | h
    · obtain ⟨e1, e2, e3⟩ := h1 h
      rw [hpool, e1, e2, e3, hInv m2]
      ring
    · obtain ⟨e1, e2, e3⟩ := h2 h
      rw [hpool, e1, e2, e3, hInv m2]
      ring
    · obtain ⟨e1, e2, e3⟩ := h3 h
      rw [hpool, e1, e2, e3, hInv m2]
      ring
  · rw [hother m2 hm2]
    exact hInv m2

theorem runBets_preserves_poolInv (l : List (Nat × Nat × Nat × Nat)) :
    ∀ st st1 : PMState, PoolInv st → runBets l st = some st1 → PoolInv st1 := by
  induction l with
  | nil =>
      intro st st1 hInv h
      simp only [runBets] at h
      cases h
      exact hInv
  | cons p rest ih =>
      intro st st1 hInv h
      obtain ⟨c, m, o, a⟩ := p
      simp only [runBets] at h
      cases hb : bet c m o a st with
      | ok q =>
          rw [hb] at h
          exact ih q.1 st1 (bet_preserves_poolInv c m o a st q.1 q.2 hInv
            (by rw [hb])) h
      | error e =>
          rw [hb] at h
          exact Option.noConfusion h

/-- C3: the pool accounting of `bet`.  Part one: the invariant
`pool = player1Shares + player2Shares + drawShares` (for every market)
is preserved by every sequence of successful `bet` calls, so it holds
after every step.  Part two: one successful `bet` of amount `a` adds
`a` to the pool, to the caller's share entry for the chosen outcome,
and to exactly the chosen outcome total, leaving the other outcome
totals, every other market, all other share entries and the claim flags
unchanged. -/
theorem bet_pool_accounting
    (l : List (Nat × Nat × Nat × Nat)) (st st1 st2 : PMState)
    (c m o a r : Nat) :
    (PoolInv st → runBets l st = some st1 → PoolInv st1) ∧
    (bet c m o a st = .ok (st2, r) →
      r = a ∧
      (st2.markets m).pool = (st.markets m).pool + a ∧
      st2.userShares m o c = st.userShares m o c + a ∧
      st2.hasClaimed = st.hasClaimed ∧
      (o = OUTCOME_PLAYER1 →
        (st2.markets m).player1Shares = (st.markets m).player1Shares + a ∧
        (st2.markets m).player2Shares = (st.markets m).player2Shares ∧
        (st2.markets m).drawShares = (st.markets m).drawShares) ∧
      (o = OUTCOME_PLAYER2 →
        (st2.markets m).player1Shares = (st.markets m).player1Shares ∧
        (st2.markets m).player2Shares = (st.markets m).player2Shares + a ∧
        (st2.markets m).drawShares = (st.markets m).drawShares) ∧
      (o = OUTCOME_DRAW →
        (st2.markets m).player1Shares = (st.markets m).player1Shares ∧
        (st2.markets m).player2Shares = (st.markets m).player2Shares ∧
        (st2.markets m).drawShares = (st.markets m).drawShares + a) ∧
      (∀ m2, m2 ≠ m → st2.markets m2 = st.markets m2) ∧
      (∀ m2 o2 u2, ¬(m2 = m ∧ o2 = o ∧ u2 = c) →
        st2.userShares m2 o2 u2 = st.userShares m2 o2 u2)) := by
  constructor
  · exact runBets_preserves_poolInv l st st1
  · intro h
    obtain ⟨hr, -, -, -, -, hus, hcl, hother, hpool, h1, h2, h3⟩ :=
      bet_ok_cases c m o a st st2 r h
    refine ⟨hr, hpool, ?_, hcl, h1, h2, h3, hother, ?_⟩
    · rw [hus]
      simp
    · intro m2 o2 u2 hk
      rw [hus]
      exact updShares_ne _ _ _ _ _ _ _ _ hk

/-- Witness for `bet_pool_accounting` at concrete inputs. -/
theorem bet_pool_accounting_witness :
    ((c3End.markets 1).pool =
      (c3End.markets 1).player1Shares + (c3End.markets 1).player2Shares +
        (c3End.markets 1).drawShares) ∧
    (c3Mid.markets 1).pool = (c3Start.markets 1).pool + 100 ∧
    c3Mid.userShares 1 1 20 = c3Start.userShares 1 1 20 + 100 ∧
    (c3Mid.markets 1).player1Shares = (c3Start.markets 1).player1Shares + 100 := by
  obtain ⟨h1, h2⟩ :=
    bet_pool_accounting [(20, 1, 1, 100), (21, 1, 3, 50)] c3Start c3End c3Mid
      20 1 1 100 100
  have hInv : PoolInv c3Start := by
    intro m2
    by_cases hm : m2 = 1
    · simp [c3Start, updMarkets, hm]
    · simp [c3Start, updMarkets, hm, emptyMarket]
  obtain ⟨-, hpool, hus, -, hp1, -⟩ := h2 (by rfl)
  exact ⟨h1 hInv (by rfl) 1, hpool, hus, (hp1 rfl).1⟩

theorem p12Inv_step (p m : Nat) (st st1 : EscrowState)
    (hInv : p12Inv p m st) (hs : EStep st st1) : p12Inv p m st1 := by
  obtain ⟨e, he, hp1, hp2, hd2⟩ := hInv
  cases hs with
  | create a2 m2 p12 p22 amt h =>
      cases hsc : st.escrows m2 with
      | some e2 => simp [create_escrow, hsc] at h
      | none =>
          have hm : m ≠ m2 := by
            intro hEq
            rw [hEq, hsc] at he
            exact Option.noConfusion he
          simp only [create_escrow, hsc] at h
          obtain rfl := Except.ok.inj h
          exact ⟨e, by simpa [updT_ne _ _ _ _ hm] using he, hp1, hp2, hd2⟩
  | dep c2 m2 h =>
      cases hsc : st.escrows m2 with
      | none => simp [deposit, hsc] at h
      | some e2 =>
          simp only [deposit, hsc] at h
          by_cases hc1 : c2 = e2.player1
          · rw [if_pos hc1] at h
            by_cases hdep : e2.deposited1 = true
            · rw [if_pos hdep] at h
              exact Except.noConfusion h
            · rw [if_neg hdep] at h
              cases hct : coinTransfer c2 e2.admin e2.amount st.balances with
              | none =>
                  rw [hct] at h
                  exact Except.noConfusion h
              | some b =>
                  rw [hct] at h
                  obtain rfl := Except.ok.inj h
                  by_cases hm : m2 = m
                  · subst hm
                    rw [he] at hsc
                    obtain rfl := Option.some.inj hsc
                    exact ⟨{ e with deposited1 := true, total := e.total + e.amount },
                      by simp [updT], by simpa using hp1, by simpa using hp2,
                      by simpa using hd2⟩
                  · exact ⟨e, by simpa [updT_ne _ _ _ _ (Ne.symm hm)] using he,
                      hp1, hp2, hd2⟩
          · rw [if_neg hc1] at h
            by_cases hc2 : c2 = e2.player2
            · rw [if_pos hc2] at h
              by_cases hdep : e2.deposited2 = true
              · rw [if_pos hdep] at h
                exact Except.noConfusion h
              · rw [if_neg hdep] at h
                cases hct : coinTransfer c2 e2.admin e2.amount st.balances with
                | none =>
                    rw [hct] at h
                    exact Except.noConfusion h
                | some b =>
                    rw [hct] at h
                    obtain rfl := Except.ok.inj h
                    by_cases hm : m2 = m
                    · subst hm
                      rw [he] at hsc
                      obtain rfl := Option.some.inj hsc
                      rw [hp1] at hc1
                      rw [hp2] at hc2
                      exact absurd hc2 hc1
                    · exact ⟨e, by simpa [updT_ne _ _ _ _ (Ne.symm hm)] using he,
                        hp1, hp2, hd2⟩
            · rw [if_neg hc2] at h
              obtain rfl := Except.ok.inj h
              exact ⟨e, he, hp1, hp2, hd2⟩
  | rwin c2 m2 w2 h =>
      cases hsc : st.escrows m2 with
      | none => simp [resolve_win, hsc] at h
      | some e2 =>
          simp only [resolve_win, hsc] at h
          by_cases hca : c2 = e2.admin
          · rw [if_pos hca] at h
            by_cases hdd : (e2.deposited1 && e2.deposited2) = true
            · rw [if_pos hdd] at h
              cases hct : coinTransfer c2 w2 (e2.total - e2.total * 5 / 100)
                  st.balances with
              | none =>
                  rw [hct] at h
                  exact Except.noConfusion h
              | some b =>
                  rw [hct] at h
                  obtain rfl := Except.ok.inj h
                  by_cases hm : m2 = m
                  · subst hm
                    rw [he] at hsc
                    obtain rfl := Option.some.inj hsc
                    rw [hd2] at hdd
                    simp at hdd
                  · exact ⟨e, by simpa [updT_ne _ _ _ _ (Ne.symm hm)] using he,
                      hp1, hp2, hd2⟩
            · rw [if_neg hdd] at h
              exact Except.noConfusion h
          · rw [if_neg hca] at h
            exact Except.noConfusion h
  | rdraw c2 m2 h =>
      cases hsc : st.escrows m2 with
      | none => simp [resolve_draw, hsc] at h
      | some e2 =>
          simp only [resolve_draw, hsc] at h
          by_cases hca : c2 = e2.admin
          · rw [if_pos hca] at h
            by_cases hdd : (e2.deposited1 && e2.deposited2) = true
            · rw [if_pos hdd] at h
              cases hct : coinTransfer c2 e2.player1
                  ((e2.total - e2.total * 5 / 100) / 2) st.balances with
              | none =>
                  rw [hct] at h
                  exact Except.noConfusion h
              | some b1 =>
                  rw [hct] at h
                  dsimp only at h
                  cases hct2 : coinTransfer c2 e2.player2
                      ((e2.total - e2.total * 5 / 100) / 2) b1 with
                  | none =>
                      rw [hct2] at h
                      exact Except.noConfusion h
                  | some b2 =>
                      rw [hct2] at h
                      obtain rfl := Except.ok.inj h
                      by_cases hm : m2 = m
                      · subst hm
                        rw [he] at hsc
                        obtain rfl := Option.some.inj hsc
                        rw [hd2] at hdd
                        simp at hdd
                      · exact ⟨e, by simpa [updT_ne _ _ _ _ (Ne.symm hm)] using he,
                          hp1, hp2, hd2⟩
            · rw [if_neg hdd] at h
              exact Except.noConfusion h
          · rw [if_neg hca] at h
            exact Except.noConfusion h

/-- C10: an escrow created with `player1 = player2 = p` can never become
fully funded.  (1) The locked configuration (record present, both slots
`p`, second flag unset) is preserved by EVERY successful operation of
the module, with any arguments — in particular the second flag never
becomes true.  (2) While the first flag is unset, a deposit by `p` with
sufficient balance succeeds and sets ONLY the first flag.  (3) Once the
first flag is set, every further deposit by `p` fails
`AlreadyDeposited`.  (4) While the second flag is unset, `resolve_win`
and `resolve_draw` fail `NotReady` when called by the admin (and
`NotAdmin` otherwise), so the held stake can never be paid out. -/
theorem locked_escrow_spec (p m c w : Nat) (st stB st1 : EscrowState) :
    (p12Inv p m st → EStep st st1 → p12Inv p m st1) ∧
    (∀ e, st.escrows m = some e → e.player1 = p → e.player2 = p →
      e.deposited1 = false → e.amount ≤ st.balances p →
      escOf (deposit p m st) m =
        some (some ⟨e.admin, p, p, e.amount, e.total + e.amount, true,
          e.deposited2⟩)) ∧
    (∀ e, stB.escrows m = some e → e.player1 = p → e.deposited1 = true →
      deposit p m stB = .error .alreadyDeposited) ∧
    (∀ e, stB.escrows m = some e → e.deposited2 = false →
      (c = e.admin → resolve_win c m w stB = .error .notReady ∧
        resolve_draw c m stB = .error .notReady) ∧
      (c ≠ e.admin → resolve_win c m w stB = .error .notAdmin ∧
        resolve_draw c m stB = .error .notAdmin)) := by
  refine ⟨p12Inv_step p m st st1, ?_, ?_, ?_⟩
  · intro e he hp1 hp2 hd1 hbal
    simp [deposit, he, hp1, hp2, hd1, coinTransfer, hbal, escOf]
    exact ⟨_, rfl, by simp [updT]⟩
  · intro e he hp1 hd1
    simp [deposit, he, hp1, hd1]
  · intro e he hd2
    constructor
    · intro hc
      constructor
      · simp [resolve_win, he, hc, hd2]
      · simp [resolve_draw, he, hc, hd2]
    · intro hc
      constructor
      · simp [resolve_win, he, hc]
      · simp [resolve_draw, he, hc]

/-- Witness for `locked_escrow_spec` at concrete inputs. -/
theorem locked_escrow_spec_witness :
    p12Inv 11 1 c10Stepped ∧
    escOf (deposit 11 1 c10Start) 1 = some (some ⟨10, 11, 11, 50, 50, true, false⟩) ∧
    deposit 11 1 c10Stepped = .error .alreadyDeposited ∧
    resolve_win 10 1 99 c10Stepped = .error .notReady ∧
    resolve_draw 10 1 c10Stepped = .error .notReady := by
  obtain ⟨h1, h2, h3, h4⟩ := locked_escrow_spec 11 1 10 99 c10Start c10Stepped c10Stepped
  have hstep : EStep c10Start c10Stepped := EStep.dep 11 1 rfl
  have hInv : p12Inv 11 1 c10Start :=
    ⟨⟨10, 11, 11, 50, 0, false, false⟩, rfl, rfl, rfl, rfl⟩
  have hresolve := h4 ⟨10, 11, 11, 50, 50, true, false⟩ rfl rfl
  exact ⟨h1 hInv hstep,
    h2 ⟨10, 11, 11, 50, 0, false, false⟩ rfl rfl rfl rfl (by decide),
    h3 ⟨10, 11, 11, 50, 50, true, false⟩ rfl rfl rfl,
    (hresolve.1 rfl).1, (hresolve.1 rfl).2⟩

-- ===== C2 / C4: escrow settlement lifecycles =====

theorem except_bind_ok {α β ε : Type} (x : α) (f : α → Except ε β) :
    (Except.ok (ε := ε) x >>= f) = f x := rfl

/-- C2 (amended): `resolve_win` pays the winner
`total - floor(total * 5 / 100)` — NOT `floor(total * 95 / 100)` as the
claim states; the two differ whenever `total` is not a multiple of 20 —
and the admin account, which custodies the deposits, retains
`floor(total * 5 / 100)`.  Lifecycle part (first five conjuncts): from
creation through both deposits and `resolve_win`, a winner distinct from
admin and players nets exactly the payout, the admin exactly the fee,
each player is down one stake, and the record is gone.  Step part (last
conjunct): on ANY fully funded escrow, `resolve_win` by the admin
succeeds for EVERY winner identity `w2` — unvalidated, players
included — removing the record and paying `w2` the payout when
`w2` is not the admin itself (a self-payout is a wash). -/
theorem escrow_win_lifecycle (a m p1 p2 s w c wx : Nat) (st stF : EscrowState)
    (e : Escrow)
    (hnone : st.escrows m = none)
    (hb1 : s ≤ st.balances p1) (hb2 : s ≤ st.balances p2)
    (h12 : p1 ≠ p2) (ha1 : a ≠ p1) (ha2 : a ≠ p2)
    (hw1 : w ≠ p1) (hw2 : w ≠ p2) (hwa : w ≠ a) :
    (balOf (escrowLifecycleWin a m p1 p2 s w st) w =
      some (st.balances w + ((s + s) - (s + s) * 5 / 100)) ∧
    balOf (escrowLifecycleWin a m p1 p2 s w st) a =
      some (st.balances a + (s + s) * 5 / 100) ∧
    balOf (escrowLifecycleWin a m p1 p2 s w st) p1 = some (st.balances p1 - s) ∧
    balOf (escrowLifecycleWin a m p1 p2 s w st) p2 = some (st.balances p2 - s) ∧
    escOf (escrowLifecycleWin a m p1 p2 s w st) m = some none) ∧
    (stF.escrows m = some e → c = e.admin →
      e.deposited1 = true → e.deposited2 = true →
      e.total - e.total * 5 / 100 ≤ stF.balances c →
      escOf (resolve_win c m wx stF) m = some none ∧
      (wx ≠ c → balOf (resolve_win c m wx stF) wx =
        some (stF.balances wx + (e.total - e.total * 5 / 100))) ∧
      (wx = c → balOf (resolve_win c m wx stF) wx = some (stF.balances wx))) := by
  have hc : create_escrow a m p1 p2 s st =
      .ok ⟨updT st.escrows m (some ⟨a, p1, p2, s, 0, false, false⟩), st.balances⟩ := by
    simp [create_escrow, hnone]
  have hd1 : deposit p1 m
      ⟨updT st.escrows m (some ⟨a, p1, p2, s, 0, false, false⟩), st.balances⟩ =
      .ok ⟨updT st.escrows m (some ⟨a, p1, p2, s, s, true, false⟩),
           updB (updB st.balances p1 (st.balances p1 - s)) a (st.balances a + s)⟩ := by
    have e1 : updB st.balances p1 (st.balances p1 - s) a = st.balances a :=
      updB_ne _ _ _ _ ha1
    simp [deposit, updT_same, coinTransfer, hb1, e1]
  have e1 : updB st.balances p1 (st.balances p1 - s) p2 = st.balances p2 :=
    updB_ne _ _ _ _ (Ne.symm h12)
  have e2 : updB (updB st.balances p1 (st.balances p1 - s)) a (st.balances a + s) p2 =
      st.balances p2 := by
    rw [updB_ne _ _ _ _ (Ne.symm ha2), e1]
  have hd2 : deposit p2 m
      ⟨updT st.escrows m (some ⟨a, p1, p2, s, s, true, false⟩),
       updB (updB st.balances p1 (st.balances p1 - s)) a (st.balances a + s)⟩ =
      .ok ⟨updT st.escrows m (some ⟨a, p1, p2, s, s + s, true, true⟩),
           updB (updB (updB (updB st.balances p1 (st.balances p1 - s)) a
               (st.balances a + s)) p2 (st.balances p2 - s)) a
             (st.balances a + s + s)⟩ := by
    have e3 : updB (updB (updB st.balances p1 (st.balances p1 - s)) a
        (st.balances a + s)) p2 (st.balances p2 - s) a =
        st.balances a + s := by
      rw [updB_ne _ _ _ _ ha2, updB_same]
    simp [deposit, updT_same, Ne.symm h12, coinTransfer, e2, hb2, e3]
  have a2 : updB (updB (updB (updB st.balances p1 (st.balances p1 - s)) a
      (st.balances a + s)) p2 (st.balances p2 - s)) a (st.balances a + s + s) a =
      st.balances a + s + s := updB_same _ _ _
  have bw2 : updB (updB (updB (updB st.balances p1 (st.balances p1 - s)) a
      (st.balances a + s)) p2 (st.balances p2 - s)) a (st.balances a + s + s) w =
      st.balances w := by
    rw [updB_ne _ _ _ _ hwa, updB_ne _ _ _ _ hw2, updB_ne _ _ _ _ hwa,
      updB_ne _ _ _ _ hw1]
  have hr : resolve_win a m w
      ⟨updT st.escrows m (some ⟨a, p1, p2, s, s + s, true, true⟩),
       updB (updB (updB (updB st.balances p1 (st.balances p1 - s)) a
           (st.balances a + s)) p2 (st.balances p2 - s)) a
         (st.balances a + s + s)⟩ =
      .ok ⟨updT st.escrows m none,
           updB (updB (updB (updB (updB (updB st.balances p1 (st.balances p1 - s)) a
                   (st.balances a + s)) p2 (st.balances p2 - s)) a
                 (st.balances a + s + s)) a
               ((st.balances a + s + s) - ((s + s) - (s + s) * 5 / 100))) w
             (st.balances w + ((s + s) - (s + s) * 5 / 100))⟩ := by
    have hple : (s + s) - (s + s) * 5 / 100 ≤ st.balances a + s + s := by omega
    have w3 : updB (updB (updB (updB (updB st.balances p1 (st.balances p1 - s)) a
        (st.balances a + s)) p2 (st.balances p2 - s)) a (st.balances a + s + s)) a
        ((st.balances a + s + s) - ((s + s) - (s + s) * 5 / 100)) w =
        st.balances w := by
      rw [updB_ne _ _ _ _ hwa, bw2]
    simp [resolve_win, updT_same, coinTransfer, hple, a2, bw2, w3]
  have hrun : escrowLifecycleWin a m p1 p2 s w st =
      .ok ⟨updT st.escrows m none,
           updB (updB (updB (updB (updB (updB st.balances p1 (st.balances p1 - s)) a
                   (st.balances a + s)) p2 (st.balances p2 - s)) a
                 (st.balances a + s + s)) a
               ((st.balances a + s + s) - ((s + s) - (s + s) * 5 / 100))) w
             (st.balances w + ((s + s) - (s + s) * 5 / 100))⟩ := by
    unfold escrowLifecycleWin
    rw [hc, except_bind_ok, hd1, except_bind_ok, hd2, except_bind_ok, hr]
  refine ⟨⟨?_, ?_, ?_, ?_, ?_⟩, ?_⟩
  · rw [hrun, balOf_ok]
    exact congrArg some (updB_same _ _ _)
  · rw [hrun, balOf_ok]
    refine congrArg some ?_
    dsimp only
    rw [updB_ne _ _ _ _ (Ne.symm hwa), updB_same]
    omega
  · rw [hrun, balOf_ok]
    refine congrArg some ?_
    dsimp only
    rw [updB_ne _ _ _ _ (Ne.symm hw1), updB_ne _ _ _ _ (Ne.symm ha1),
      updB_ne _ _ _ _ (Ne.symm ha1), updB_ne _ _ _ _ h12,
      updB_ne _ _ _ _ (Ne.symm ha1), updB_same]
  · rw [hrun, balOf_ok]
    refine congrArg some ?_
    dsimp only
    rw [updB_ne _ _ _ _ (Ne.symm hw2), updB_ne _ _ _ _ (Ne.symm ha2),
      updB_ne _ _ _ _ (Ne.symm ha2), updB_same]
  · rw [hrun, escOf_ok]
    exact congrArg some (updT_same _ _ _)
  · intro hsc hca hfd1 hfd2 hple
    have hdd : (e.deposited1 && e.deposited2) = true := by rw [hfd1, hfd2]; rfl
    have hct : coinTransfer c wx (e.total - e.total * 5 / 100) stF.balances =
        some (updB (updB stF.balances c
            (stF.balances c - (e.total - e.total * 5 / 100))) wx
          (updB stF.balances c
            (stF.balances c - (e.total - e.total * 5 / 100)) wx +
            (e.total - e.total * 5 / 100))) := by
      simp [coinTransfer, hple]
    have hres : resolve_win c m wx stF =
        .ok ⟨updT stF.escrows m none,
          updB (updB stF.balances c
              (stF.balances c - (e.total - e.total * 5 / 100))) wx
            (updB stF.balances c
              (stF.balances c - (e.total - e.total * 5 / 100)) wx +
              (e.total - e.total * 5 / 100))⟩ := by
      simp only [resolve_win, hsc]
      rw [if_pos hca, if_pos hdd, hct]
    refine ⟨?_, ?_, ?_⟩
    · rw [hres, escOf_ok]
      exact congrArg some (updT_same _ _ _)
    · intro hw
      rw [hres, balOf_ok]
      refine congrArg some ?_
      dsimp only
      rw [updB_same, updB_ne _ _ _ _ hw]
    · intro hw
      subst hw
      rw [hres, balOf_ok]
      refine congrArg some ?_
      dsimp only
      rw [updB_same, updB_same]
      exact Nat.sub_add_cancel hple

/-- C2 counterexample: at stake 15 (`total = 30`) the winner ends with
`1029 = 1000 + (30 - floor(30 * 5 / 100))` and the admin with `1001`,
whereas the claim formulas `floor(30 * 0.95) = 28` and
`30 - floor(30 * 0.95) = 2` predict `1028` and `1002`. -/
theorem escrow_win_claim_formula_false :
    balOf (escrowLifecycleWin 10 1 11 12 15 20 c2Start) 20 = some 1029 ∧
    balOf (escrowLifecycleWin 10 1 11 12 15 20 c2Start) 10 = some 1001 ∧
    (1029 : Nat) ≠ 1000 + (15 + 15) * 95 / 100 ∧
    (1001 : Nat) ≠ 1000 + ((15 + 15) - (15 + 15) * 95 / 100) := by
  decide

/-- Witness for `escrow_win_lifecycle` at concrete inputs: the
lifecycle with admin 10, players 11 and 12, stake 100 and outside
winner 20; the resolve step on `c2Funded` (total 200) paying winner 11
— a player — and, in a second application, the admin 10 itself. -/
theorem escrow_win_lifecycle_witness :
    (balOf (escrowLifecycleWin 10 1 11 12 100 20 c2Start) 20 =
      some (c2Start.balances 20 + ((100 + 100) - (100 + 100) * 5 / 100)) ∧
    balOf (escrowLifecycleWin 10 1 11 12 100 20 c2Start) 10 =
      some (c2Start.balances 10 + (100 + 100) * 5 / 100) ∧
    balOf (escrowLifecycleWin 10 1 11 12 100 20 c2Start) 11 =
      some (c2Start.balances 11 - 100) ∧
    balOf (escrowLifecycleWin 10 1 11 12 100 20 c2Start) 12 =
      some (c2Start.balances 12 - 100) ∧
    escOf (escrowLifecycleWin 10 1 11 12 100 20 c2Start) 1 = some none) ∧
    escOf (resolve_win 10 1 11 c2Funded) 1 = some none ∧
    balOf (resolve_win 10 1 11 c2Funded) 11 =
      some (c2Funded.balances 11 + (200 - 200 * 5 / 100)) ∧
    balOf (resolve_win 10 1 10 c2Funded) 10 = some (c2Funded.balances 10) := by
  obtain ⟨hlife, hstep⟩ :=
    escrow_win_lifecycle 10 1 11 12 100 20 10 11 c2Start c2Funded
      ⟨10, 11, 12, 100, 200, true, true⟩ rfl (by decide) (by decide) (by decide)
      (by decide) (by decide) (by decide) (by decide) (by decide)
  obtain ⟨hgone, hpay, -⟩ := hstep rfl rfl rfl rfl (by decide)
  obtain ⟨-, hself⟩ :=
    escrow_win_lifecycle 10 1 11 12 100 20 10 10 c2Start c2Funded
      ⟨10, 11, 12, 100, 200, true, true⟩ rfl (by decide) (by decide) (by decide)
      (by decide) (by decide) (by decide) (by decide) (by decide)
  obtain ⟨-, -, hwash⟩ := hself rfl rfl rfl rfl (by decide)
  exact ⟨hlife, hgone, hpay (by decide), hwash rfl⟩

/-- C4: full draw lifecycle.  With `total = 2 * stakePerPlayer`,
`fee = floor(total * 5 / 100)` and `split = floor((total - fee) / 2)`:
both players are refunded `split` on top of being one stake down, the
record is deleted, and the admin account — the account custodying the
pot — retains `total - 2 * split = fee + stranded` where
`stranded = (total - fee) - 2 * split`; the final two conjuncts are the
exact accounting identity `fee + (split + split) + stranded = total` and
the bound `stranded <= 1`. -/
theorem escrow_draw_lifecycle (a m p1 p2 s : Nat) (st : EscrowState)
    (hnone : st.escrows m = none)
    (hb1 : s ≤ st.balances p1) (hb2 : s ≤ st.balances p2)
    (h12 : p1 ≠ p2) (ha1 : a ≠ p1) (ha2 : a ≠ p2) :
    balOf (escrowLifecycleDraw a m p1 p2 s st) p1 =
      some (st.balances p1 - s + ((s + s) - (s + s) * 5 / 100) / 2) ∧
    balOf (escrowLifecycleDraw a m p1 p2 s st) p2 =
      some (st.balances p2 - s + ((s + s) - (s + s) * 5 / 100) / 2) ∧
    balOf (escrowLifecycleDraw a m p1 p2 s st) a =
      some (st.balances a +
        ((s + s) - 2 * (((s + s) - (s + s) * 5 / 100) / 2))) ∧
    escOf (escrowLifecycleDraw a m p1 p2 s st) m = some none ∧
    (s + s) * 5 / 100 +
      ((((s + s) - (s + s) * 5 / 100) / 2) + (((s + s) - (s + s) * 5 / 100) / 2)) +
      (((s + s) - (s + s) * 5 / 100) - 2 * (((s + s) - (s + s) * 5 / 100) / 2)) =
      s + s ∧
    ((s + s) - (s + s) * 5 / 100) - 2 * (((s + s) - (s + s) * 5 / 100) / 2) ≤ 1 := by
  have hc : create_escrow a m p1 p2 s st =
      .ok ⟨updT st.escrows m (some ⟨a, p1, p2, s, 0, false, false⟩), st.balances⟩ := by
    simp [create_escrow, hnone]
  have hd1 : deposit p1 m
      ⟨updT st.escrows m (some ⟨a, p1, p2, s, 0, false, false⟩), st.balances⟩ =
      .ok ⟨updT st.escrows m (some ⟨a, p1, p2, s, s, true, false⟩),
           updB (updB st.balances p1 (st.balances p1 - s)) a (st.balances a + s)⟩ := by
    have e1 : updB st.balances p1 (st.balances p1 - s) a = st.balances a :=
      updB_ne _ _ _ _ ha1
    simp [deposit, updT_same, coinTransfer, hb1, e1]
  have e1 : updB st.balances p1 (st.balances p1 - s) p2 = st.balances p2 :=
    updB_ne _ _ _ _ (Ne.symm h12)
  have e2 : updB (updB st.balances p1 (st.balances p1 - s)) a (st.balances a + s) p2 =
      st.balances p2 := by
    rw [updB_ne _ _ _ _ (Ne.symm ha2), e1]
  have hd2 : deposit p2 m
      ⟨updT st.escrows m (some ⟨a, p1, p2, s, s, true, false⟩),
       updB (updB st.balances p1 (st.balances p1 - s)) a (st.balances a + s)⟩ =
      .ok ⟨updT st.escrows m (some ⟨a, p1, p2, s, s + s, true, true⟩),
           updB (updB (updB (updB st.balances p1 (st.balances p1 - s)) a
               (st.balances a + s)) p2 (st.balances p2 - s)) a
             (st.balances a + s + s)⟩ := by
    have e3 : updB (updB (updB st.balances p1 (st.balances p1 - s)) a
        (st.balances a + s)) p2 (st.balances p2 - s) a =
        st.balances a + s := by
      rw [updB_ne _ _ _ _ ha2, updB_same]
    simp [deposit, updT_same, Ne.symm h12, coinTransfer, e2, hb2, e3]
  have a2 : updB (updB (updB (updB st.balances p1 (st.balances p1 - s)) a
      (st.balances a + s)) p2 (st.balances p2 - s)) a (st.balances a + s + s) a =
      st.balances a + s + s := updB_same _ _ _
  have p12 : updB (updB (updB (updB st.balances p1 (st.balances p1 - s)) a
      (st.balances a + s)) p2 (st.balances p2 - s)) a (st.balances a + s + s) p1 =
      st.balances p1 - s := by
    rw [updB_ne _ _ _ _ (Ne.symm ha1), updB_ne _ _ _ _ h12,
      updB_ne _ _ _ _ (Ne.symm ha1), updB_same]
  have p22 : updB (updB (updB (updB st.balances p1 (st.balances p1 - s)) a
      (st.balances a + s)) p2 (st.balances p2 - s)) a (st.balances a + s + s) p2 =
      st.balances p2 - s := by
    rw [updB_ne _ _ _ _ (Ne.symm ha2), updB_same]
  have hr : resolve_draw a m
      ⟨updT st.escrows m (some ⟨a, p1, p2, s, s + s, true, true⟩),
       updB (updB (updB (updB st.balances p1 (st.balances p1 - s)) a
           (st.balances a + s)) p2 (st.balances p2 - s)) a
         (st.balances a + s + s)⟩ =
      .ok ⟨updT st.escrows m none,
           updB (updB
             (updB (updB (updB (updB (updB (updB st.balances p1 (st.balances p1 - s)) a
                       (st.balances a + s)) p2 (st.balances p2 - s)) a
                     (st.balances a + s + s)) a
                   ((st.balances a + s + s) - ((s + s) - (s + s) * 5 / 100) / 2)) p1
                 ((st.balances p1 - s) + ((s + s) - (s + s) * 5 / 100) / 2)) a
               (((st.balances a + s + s) - ((s + s) - (s + s) * 5 / 100) / 2) -
                 ((s + s) - (s + s) * 5 / 100) / 2)) p2
             ((st.balances p2 - s) + ((s + s) - (s + s) * 5 / 100) / 2)⟩ := by
    have hple1 : ((s + s) - (s + s) * 5 / 100) / 2 ≤ st.balances a + s + s := by
      omega
    have b3a : updB (updB (updB (updB (updB st.balances p1 (st.balances p1 - s)) a
        (st.balances a + s)) p2 (st.balances p2 - s)) a (st.balances a + s + s)) a
        ((st.balances a + s + s) - ((s + s) - (s + s) * 5 / 100) / 2) p1 =
        st.balances p1 - s := by
      rw [updB_ne _ _ _ _ (Ne.symm ha1), p12]
    have b4a : updB (updB (updB (updB (updB (updB st.balances p1
        (st.balances p1 - s)) a
        (st.balances a + s)) p2 (st.balances p2 - s)) a (st.balances a + s + s)) a
        ((st.balances a + s + s) - ((s + s) - (s + s) * 5 / 100) / 2)) p1
        ((st.balances p1 - s) + ((s + s) - (s + s) * 5 / 100) / 2) a =
        (st.balances a + s + s) - ((s + s) - (s + s) * 5 / 100) / 2 := by
      rw [updB_ne _ _ _ _ ha1, updB_same]
    have hple2 : ((s + s) - (s + s) * 5 / 100) / 2 ≤
        (st.balances a + s + s) - ((s + s) - (s + s) * 5 / 100) / 2 := by
      omega
    have b4p2 : updB (updB (updB (updB (updB (updB st.balances p1
        (st.balances p1 - s)) a
        (st.balances a + s)) p2 (st.balances p2 - s)) a (st.balances a + s + s)) a
        ((st.balances a + s + s) - ((s + s) - (s + s) * 5 / 100) / 2)) p1
        ((st.balances p1 - s) + ((s + s) - (s + s) * 5 / 100) / 2) p2 =
        st.balances p2 - s := by
      rw [updB_ne _ _ _ _ (Ne.symm h12), updB_ne _ _ _ _ (Ne.symm ha2), p22]
    have b5p2 : updB (updB (updB (updB (updB (updB (updB st.balances p1
        (st.balances p1 - s)) a
        (st.balances a + s)) p2 (st.balances p2 - s)) a (st.balances a + s + s)) a
        ((st.balances a + s + s) - ((s + s) - (s + s) * 5 / 100) / 2)) p1
        ((st.balances p1 - s) + ((s + s) - (s + s) * 5 / 100) / 2)) a
        (((st.balances a + s + s) - ((s + s) - (s + s) * 5 / 100) / 2) -
          ((s + s) - (s + s) * 5 / 100) / 2) p2 =
        st.balances p2 - s := by
      rw [updB_ne _ _ _ _ (Ne.symm ha2), b4p2]
    simp [resolve_draw, updT_same, coinTransfer, hple1, hple2, a2, b3a, b4a, b4p2,
      b5p2]
  have hrun : escrowLifecycleDraw a m p1 p2 s st =
      .ok ⟨updT st.escrows m none,
           updB (updB
             (updB (updB (updB (updB (updB (updB st.balances p1 (st.balances p1 - s)) a
                       (st.balances a + s)) p2 (st.balances p2 - s)) a
                     (st.balances a + s + s)) a
                   ((st.balances a + s + s) - ((s + s) - (s + s) * 5 / 100) / 2)) p1
                 ((st.balances p1 - s) + ((s + s) - (s + s) * 5 / 100) / 2)) a
               (((st.balances a + s + s) - ((s + s) - (s + s) * 5 / 100) / 2) -
                 ((s + s) - (s + s) * 5 / 100) / 2)) p2
             ((st.balances p2 - s) + ((s + s) - (s + s) * 5 / 100) / 2)⟩ := by
    unfold escrowLifecycleDraw
    rw [hc, except_bind_ok, hd1, except_bind_ok, hd2, except_bind_ok, hr]
  refine ⟨?_, ?_, ?_, ?_, ?_, ?_⟩
  · rw [hrun, balOf_ok]
    refine congrArg some ?_
    dsimp only
    rw [updB_ne _ _ _ _ h12, updB_ne _ _ _ _ (Ne.symm ha1), updB_same]
  · rw [hrun, balOf_ok]
    exact congrArg some (updB_same _ _ _)
  · rw [hrun, balOf_ok]
    refine congrArg some ?_
    dsimp only
    rw [updB_ne _ _ _ _ ha2, updB_same]
    omega
  · rw [hrun, escOf_ok]
    exact congrArg some (updT_same _ _ _)
  · omega
  · omega

/-- Witness for `escrow_draw_lifecycle` at concrete inputs: stake 15, so
`total = 30`, `fee = 1`, `split = 14`, `stranded = 1`. -/
theorem escrow_draw_lifecycle_witness :
    balOf (escrowLifecycleDraw 10 1 11 12 15 c2Start) 11 =
      some (c2Start.balances 11 - 15 + ((15 + 15) - (15 + 15) * 5 / 100) / 2) ∧
    balOf (escrowLifecycleDraw 10 1 11 12 15 c2Start) 12 =
      some (c2Start.balances 12 - 15 + ((15 + 15) - (15 + 15) * 5 / 100) / 2) ∧
    balOf (escrowLifecycleDraw 10 1 11 12 15 c2Start) 10 =
      some (c2Start.balances 10 +
        ((15 + 15) - 2 * (((15 + 15) - (15 + 15) * 5 / 100) / 2))) ∧
    escOf (escrowLifecycleDraw 10 1 11 12 15 c2Start) 1 = some none ∧
    (15 + 15) * 5 / 100 +
      ((((15 + 15) - (15 + 15) * 5 / 100) / 2) +
        (((15 + 15) - (15 + 15) * 5 / 100) / 2)) +
      (((15 + 15) - (15 + 15) * 5 / 100) - 2 * (((15 + 15) - (15 + 15) * 5 / 100) / 2)) =
      15 + 15 ∧
    ((15 + 15) - (15 + 15) * 5 / 100) - 2 * (((15 + 15) - (15 + 15) * 5 / 100) / 2) ≤ 1 :=
  escrow_draw_lifecycle 10 1 11 12 15 c2Start rfl (by decide) (by decide)
    (by decide) (by decide) (by decide)
